import Mathlib

/-!
Verification of the lifespan activity-capture agent (desktop Tauri client).

Shallow embedding of the capture-to-sync pipeline:
  * `collector/window_tracker.rs` — window-title sanitization,
  * `collector/event_queue.rs`    — bounded event queue,
  * `collector/mod.rs`            — monitor polling loop,
  * `encryption/mod.rs`           — authenticated encryption wrapper,
  * `database/connection.rs`      — durable event store,
  * `sync/client.rs`              — batch sync engine with retry/backoff.

Machine integers are modelled as `Nat`/`Int` (timestamps are millisecond
`Int`s, bytes are `Nat`s combined with bitwise xor). Fallible operations
return `Option` or an explicit error sum. All definitions are executable.
-/

namespace Lifespan

/-! ## String containment (Rust `str::contains` with a string pattern) -/

/-- Does the character list start with `p`?  (Rust pattern prefix match.) -/
def hasPre : List Char → List Char → Bool
  | [], _ => true
  | _ :: _, [] => false
  | p :: ps, c :: cs => p == c && hasPre ps cs

/-- Does `p` occur as a contiguous substring of `s`? -/
def hasSub (p : List Char) : List Char → Bool
  | [] => p.isEmpty
  | c :: cs => hasPre p (c :: cs) || hasSub p cs

/-- Rust `s.contains(pat)` for a string pattern: substring containment. -/
def strContains (s pat : String) : Bool :=
  hasSub pat.data s.data

/-! ## `collector/window_tracker.rs` — `WindowTracker::sanitize_title` -/

/-- The fixed sensitive-app keyword table of `sanitize_title`. -/
def sensitive_apps : List String :=
  ["Bank", "Finance", "Password", "Login", "1Password", "Bitwarden", "KeePass"]

/-- `WindowTracker::sanitize_title`: bullet/asterisk masked-password markers
first, then the case-sensitive keyword table, else the title unchanged. -/
def sanitize_title (title : String) : String :=
  if strContains title "•••" || strContains title "***" then
    "[Sensitive Content]"
  else if sensitive_apps.any (fun app => strContains title app) then
    "[Protected App]"
  else
    title

/-! ## `collector/window_tracker.rs` — `WindowInfo` -/

/-- `WindowInfo`: one foreground-activity observation. Timestamps are
millisecond integers. -/
structure WindowInfo where
  process_name : String
  window_title : String
  timestamp : Int
deriving Repr, DecidableEq

/-! ## `collector/event_queue.rs` — `EventQueue` -/

/-- `QueuedEvent`: an event resident in the bounded queue. -/
structure QueuedEvent where
  id : String
  window_info : WindowInfo
  queued_at : Int
  retry_count : Nat
deriving Repr, DecidableEq

/-- `EventQueue` state: the mutex-protected event vector plus the counting
semaphore, represented by its number of currently available permits. -/
structure EventQueue where
  events : List QueuedEvent
  max_size : Nat
  permits : Nat
deriving Repr, DecidableEq

/-- `EventQueue::new(max_size)`: empty vector, semaphore holding `max_size`
permits. -/
def EventQueue.new (max_size : Nat) : EventQueue :=
  { events := [], max_size := max_size, permits := max_size }

/-- `EventQueue::enqueue`: a permit is acquired to gate admission (the
caller suspends while none is available — the step relation's guard), a
fresh event is appended at the tail, and then the `SemaphorePermit` bound
to `_permit` is dropped — released back to the semaphore — when `enqueue`
returns, since `forget` is never called. A completed enqueue therefore
leaves the available-permit count unchanged. `id` and `now` stand for the
freshly generated UUID and `Utc::now()`. -/
def EventQueue.enqueue (q : EventQueue) (info : WindowInfo) (id : String)
    (now : Int) : EventQueue :=
  { q with
      events := q.events ++
        [{ id := id, window_info := info, queued_at := now, retry_count := 0 }] }

/-- `EventQueue::drain`: removes and returns every resident event, then
releases one permit per removed event. -/
def EventQueue.drain (q : EventQueue) : List QueuedEvent × EventQueue :=
  (q.events, { q with events := [], permits := q.permits + q.events.length })

/-- One completed operation on the queue, operations running one after the
other. `enqueue` fires only while a permit is available (the acquire call
suspends otherwise), and by `EventQueue.enqueue` it hands its permit back
on return. -/
inductive QStep : EventQueue → EventQueue → Prop
  | enqueue (q : EventQueue) (info : WindowInfo) (id : String) (now : Int) :
      0 < q.permits → QStep q (q.enqueue info id now)
  | drain (q : EventQueue) : QStep q q.drain.2

/-- States reachable from `EventQueue::new C` by enqueue/drain steps. -/
def QReachable (C : Nat) (q : EventQueue) : Prop :=
  Relation.ReflTransGen QStep (EventQueue.new C) q

/-! ## `collector/mod.rs` — `Collector::start` polling loop -/

/-- The loop-local and shared state of the collector's tracking loop:
`last_window` is the loop-local last recorded process name,
`events_collected` the shared counter, `active_window` the shared display
string, and `stored` the sequence of events written to the store. -/
structure MonitorState where
  last_window : Option String
  events_collected : Int
  active_window : Option String
  stored : List WindowInfo
deriving Repr, DecidableEq

/-- The collector's state before the first tick. -/
def monitor_init : MonitorState :=
  { last_window := none, events_collected := 0, active_window := none,
    stored := [] }

/-- One non-idle tick of the tracking loop in which the window probe
succeeded with `w`: if the probed process name differs from `last_window`
(`last_window != current_window`, so also on the very first observation),
the counter is incremented, `last_window` and the display string are
updated, and the event is stored; otherwise nothing changes. -/
def monitor_tick (s : MonitorState) (w : WindowInfo) : MonitorState :=
  let current_window : Option String := some w.process_name
  if s.last_window ≠ current_window then
    { last_window := current_window,
      events_collected := s.events_collected + 1,
      active_window := some (w.process_name ++ " - " ++ w.window_title),
      stored := s.stored ++ [w] }
  else
    s

/-- Running the tracking loop over a sequence of successfully probed
foreground windows. -/
def monitor_run (ws : List WindowInfo) : MonitorState :=
  ws.foldl monitor_tick monitor_init

/-! ## `database/connection.rs` — the durable store -/

/-- One row of the `local_events` table. -/
structure LocalEventRow where
  id : String
  event_type : String
  timestamp : Int
  duration : Int
  app_name : String
  window_title : Option String
  synced : Bool
  created_at : Int
deriving Repr, DecidableEq

/-- `StoredEvent`: the projection of a row returned by the read queries. -/
structure StoredEvent where
  id : String
  event_type : String
  timestamp : Int
  duration : Int
  app_name : String
  window_title : Option String
deriving Repr, DecidableEq

/-- Reading a row converts its millisecond timestamp with
`DateTime::from_timestamp(ms / 1000, 0)` (truncating `i64` division, hence
`Int.div`), and the sync engine later reads it back in milliseconds. -/
def rowToStored (r : LocalEventRow) : StoredEvent :=
  { id := r.id, event_type := r.event_type,
    timestamp := r.timestamp.tdiv 1000 * 1000,
    duration := r.duration, app_name := r.app_name,
    window_title := r.window_title }

/-- The two key/value tables (`sync_state`, `local_settings`) and the event
table of one database. -/
structure DbState where
  events : List LocalEventRow
  sync_state : List (String × String)
  settings : List (String × String)
deriving Repr, DecidableEq

/-- `SELECT value FROM t WHERE key = ?`. -/
def kvGet (m : List (String × String)) (k : String) : Option String :=
  (m.find? (fun p => p.1 == k)).map (·.2)

/-- `INSERT ... ON CONFLICT(key) DO UPDATE`: upsert. -/
def kvSet (m : List (String × String)) (k v : String) : List (String × String) :=
  if (m.find? (fun p => p.1 == k)).isSome then
    m.map (fun p => if p.1 == k then (k, v) else p)
  else
    m ++ [(k, v)]

/-- `Database::get_setting`. -/
def get_setting (db : DbState) (key : String) : Option String :=
  kvGet db.settings key

/-- `Database::set_setting`. -/
def set_setting (db : DbState) (key value : String) : DbState :=
  { db with settings := kvSet db.settings key value }

/-- `Database::update_sync_state`. -/
def update_sync_state (db : DbState) (key value : String) : DbState :=
  { db with sync_state := kvSet db.sync_state key value }

/-- `Database::get_last_sync_time_sync`: the raw `last_sync_at` record (the
caller parses it as a millisecond integer). -/
def get_last_sync_raw (db : DbState) : Option String :=
  kvGet db.sync_state "last_sync_at"

/-- The `ORDER BY timestamp ASC` comparison on rows. -/
def tsLE (a b : LocalEventRow) : Prop := a.timestamp ≤ b.timestamp

instance : DecidableRel tsLE :=
  fun a b => inferInstanceAs (Decidable (a.timestamp ≤ b.timestamp))

instance : IsTotal LocalEventRow tsLE :=
  ⟨fun a b => le_total a.timestamp b.timestamp⟩

instance : IsTrans LocalEventRow tsLE :=
  ⟨fun _ _ _ h1 h2 => le_trans h1 h2⟩

/-- `Database::get_unsynced_events`:
`SELECT ... WHERE synced = 0 ORDER BY timestamp ASC`. -/
def get_unsynced_events (db : DbState) : List StoredEvent :=
  ((db.events.filter (fun r => !r.synced)).insertionSort tsLE).map rowToStored

/-- One `UPDATE local_events SET synced = 1 WHERE id = ?` statement. -/
def markOne (id : String) (events : List LocalEventRow) : List LocalEventRow :=
  events.map (fun r => if r.id = id then { r with synced := true } else r)

/-- `Database::mark_as_synced`: early return on an empty id list, otherwise
one `UPDATE` per id inside a transaction. -/
def mark_as_synced (db : DbState) (event_ids : List String) : DbState :=
  if event_ids.isEmpty then db
  else
    { db with
        events := event_ids.foldl (fun acc id => markOne id acc) db.events }

/-! ## `encryption/mod.rs` — `CryptoManager`

`CryptoManager::encrypt` / `CryptoManager::decrypt` wrap AES-256-GCM from
the external `aes_gcm` crate: `encrypt` draws a fresh random 12-byte nonce
and produces a ciphertext with the 16-byte authentication tag appended;
`decrypt` fails whenever the authentication tag does not verify. The cipher
internals are not part of this repository, so they are modelled from the
spec's Cryptor contract (§6): a key-and-nonce-determined keystream XORed
over the bytes, plus a 16-byte key-and-nonce-dependent checksum tag
appended to the ciphertext. Bytes are `Nat`s below 256; the random nonce is
passed in as a parameter. -/

/-- Modelled from the spec: the byte at position `i` of the keystream that
the external cipher derives from the key and the single-use nonce. -/
def ksByte (key nonce : List Nat) (i : Nat) : Nat :=
  (key.foldl (fun a b => a * 31 + b) 7 +
    nonce.foldl (fun a b => a * 31 + b) 3 + i) % 256

/-- XOR a byte list against the keystream, starting at position `i`.
Applying it twice gives back the input, which is how the modelled cipher
both encrypts and decrypts. -/
def xorKs (key nonce : List Nat) : Nat → List Nat → List Nat
  | _, [] => []
  | i, b :: bs => (b ^^^ ksByte key nonce i) :: xorKs key nonce (i + 1) bs

/-- Byte `j` of the checksum over the payload: the XOR of the payload
bytes whose position is congruent to `j` modulo 16, positions counted from
`i`. -/
def tagFold (j : Nat) : Nat → List Nat → Nat
  | _, [] => 0
  | i, b :: bs => (if i % 16 = j then b else 0) ^^^ tagFold j (i + 1) bs

/-- Modelled from the spec: the 16-byte authentication tag the external
cipher computes over the ciphertext payload under the key and nonce. -/
def tagOf (key nonce payload : List Nat) : List Nat :=
  (List.range 16).map
    (fun j => tagFold j 0 payload ^^^ key.getD j 0 ^^^ nonce.getD j 0)

/-- `EncryptedData`: ciphertext (tag appended) plus the nonce. -/
structure EncryptedData where
  ciphertext : List Nat
  nonce : List Nat
deriving Repr, DecidableEq

/-- `CryptoManager::encrypt`: the freshly generated random nonce is the
`nonce` argument; the returned ciphertext carries the 16-byte tag appended
after the encrypted payload. -/
def encrypt (key nonce plaintext : List Nat) : EncryptedData :=
  let payload := xorKs key nonce 0 plaintext
  { ciphertext := payload ++ tagOf key nonce payload, nonce := nonce }

/-- `CryptoManager::decrypt`: rejects a malformed nonce or a ciphertext
shorter than the tag, splits the trailing 16-byte tag off, and fails unless
the tag recomputed over the payload under the key and nonce matches; on
success returns the decrypted payload. -/
def decrypt (key : List Nat) (data : EncryptedData) : Option (List Nat) :=
  if data.nonce.length ≠ 12 then none
  else if data.ciphertext.length < 16 then none
  else if data.ciphertext.drop (data.ciphertext.length - 16) =
      tagOf key data.nonce
        (data.ciphertext.take (data.ciphertext.length - 16)) then
    some (xorKs key data.nonce 0
      (data.ciphertext.take (data.ciphertext.length - 16)))
  else
    none

/-! ## `sync/client.rs` — `SyncClient` -/

/-- `ServerConfig`: endpoint, bearer credential, device identifier. -/
structure ServerConfig where
  server_url : String
  jwt_token : String
  device_id : String
deriving Repr, DecidableEq

/-- `SyncError`: the sync failure taxonomy. -/
inductive SyncError
  | Network (msg : String)
  | Auth (msg : String)
  | Server (msg : String)
  | Encryption (msg : String)
  | Database (msg : String)
  | Unknown (msg : String)
deriving Repr, DecidableEq

/-- The `thiserror` display strings of `SyncError`. -/
def SyncError.display : SyncError → String
  | .Network m => "Network error: " ++ m
  | .Auth m => "Authentication failed: " ++ m
  | .Server m => "Server error: " ++ m
  | .Encryption m => "Encryption error: " ++ m
  | .Database m => "Database error: " ++ m
  | .Unknown m => "Unknown error: " ++ m

/-- The outcome of one HTTP POST: a transport error, or a response with a
status code, a body, and — for 2xx responses — whether the body parses as a
`SyncResponse` (`parse_err` carries the parse-error text otherwise). -/
inductive HttpOutcome
  | netError (msg : String)
  | response (status : Nat) (body : String) (parse_err : Option String)
deriving Repr, DecidableEq

/-- The response handling of `SyncClient::send_events`: any 2xx with a
parseable body is success; 401/403 map to `Auth`; 500–599 map to `Server`;
anything else maps to `Unknown`, carrying the body text. -/
def classify_response (o : HttpOutcome) : Option SyncError :=
  match o with
  | .netError msg => some (.Network ("Failed to connect: " ++ msg))
  | .response status body parse_err =>
    if 200 ≤ status ∧ status ≤ 299 then
      match parse_err with
      | none => none
      | some e => some (.Unknown ("Failed to parse response: " ++ e))
    else if status = 401 ∨ status = 403 then
      some (.Auth ("Authentication failed: " ++ body))
    else if 500 ≤ status ∧ status ≤ 599 then
      some (.Server ("Server error: " ++ body))
    else
      some (.Unknown ("HTTP " ++ toString status ++ ": " ++ body))

/-- The UTF-8 bytes of a string (Rust `str::as_bytes`), spelled as the
character-wise UTF-8 encoding underlying `String.toUTF8`. -/
def strBytes (s : String) : List Nat :=
  (s.data.flatMap String.utf8EncodeChar).map (fun b => b.toNat)

/-- The plaintext `build_sync_events` protects: the window title when
present, else the application name. -/
def plaintextOf (e : StoredEvent) : List Nat :=
  match e.window_title with
  | some t => strBytes t
  | none => strBytes e.app_name

/-- `SyncClient::categorize_app`: case-insensitive substring matching
against the fixed table. -/
def categorize_app (app_name : String) : Option String :=
  let app_lower := app_name.toLower
  let category :=
    if strContains app_lower "chrome" || strContains app_lower "firefox" ||
        strContains app_lower "edge" then "work"
    else if strContains app_lower "code" || strContains app_lower "idea" ||
        strContains app_lower "visual" then "development"
    else if strContains app_lower "slack" || strContains app_lower "teams" ||
        strContains app_lower "zoom" then "communication"
    else if strContains app_lower "spotify" ||
        strContains app_lower "netflix" ||
        strContains app_lower "vlc" then "entertainment"
    else if strContains app_lower "word" || strContains app_lower "excel" ||
        strContains app_lower "powerpoint" then "productivity"
    else if strContains app_lower "steam" ||
        strContains app_lower "game" then "gaming"
    else "other"
  some category

/-- The future-timestamp guard of `build_sync_events`: if the event
timestamp is more than one minute (60000 ms) ahead of now, the current time
is substituted; otherwise the recorded timestamp is kept. -/
def clampTimestamp (now_millis event_timestamp : Int) : Int :=
  if event_timestamp > now_millis + 60000 then now_millis else event_timestamp

/-- The wire event of the sync request body. `encrypted_data`, `nonce` and
`tag` are kept as byte lists; their base64/hex text encodings come from
external crates and are not modelled. -/
structure SyncEvent where
  id : String
  event_type : String
  timestamp : Int
  duration : Int
  encrypted_data : List Nat
  nonce : List Nat
  tag : List Nat
  app_name : String
  category : Option String
deriving Repr, DecidableEq

/-- One iteration of the `build_sync_events` loop: encrypt the plaintext
under a fresh nonce, split the trailing 16-byte tag off the ciphertext,
derive the category, and clamp the timestamp. -/
def mkSyncEvent (key nonce : List Nat) (now_millis : Int)
    (event : StoredEvent) : SyncEvent :=
  let encrypted := encrypt key nonce (plaintextOf event)
  let ciphertext_len := encrypted.ciphertext.length
  { id := event.id,
    event_type := event.event_type,
    timestamp := clampTimestamp now_millis event.timestamp,
    duration := event.duration,
    encrypted_data := encrypted.ciphertext.take (ciphertext_len - 16),
    nonce := encrypted.nonce,
    tag := encrypted.ciphertext.drop (ciphertext_len - 16),
    app_name := event.app_name,
    category := categorize_app event.app_name }

/-- The per-event loop of `build_sync_events`; `k` indexes the fresh
nonces drawn by successive `encrypt` calls. -/
def build_go (key : List Nat) (nonces : Nat → List Nat) (now_millis : Int) :
    Nat → List StoredEvent → Except SyncError (List SyncEvent)
  | _, [] => .ok []
  | k, e :: es =>
    if (encrypt key (nonces k) (plaintextOf e)).ciphertext.length < 16 then
      .error (.Encryption "Invalid ciphertext length")
    else
      (build_go key nonces now_millis (k + 1) es).map
        (fun rest => mkSyncEvent key (nonces k) now_millis e :: rest)

/-- `SyncClient::build_sync_events`: fails with an `Encryption` error when
no crypto key is installed, otherwise encrypts each event independently. -/
def build_sync_events (crypto : Option (List Nat)) (nonces : Nat → List Nat)
    (now_millis : Int) (events : List StoredEvent) :
    Except SyncError (List SyncEvent) :=
  match crypto with
  | none => .error (.Encryption "Crypto manager not initialized")
  | some key => build_go key nonces now_millis 0 events

/-- `SyncClient::send_events`: build the encrypted batch, POST it to the
configured endpoint (the transport outcome is the `response` parameter) and
classify the response. -/
def send_events (crypto : Option (List Nat)) (nonces : Nat → List Nat)
    (now_millis : Int) (_config : ServerConfig) (events : List StoredEvent)
    (response : HttpOutcome) : Option SyncError :=
  match build_sync_events crypto nonces now_millis events with
  | .error e => some e
  | .ok _ => classify_response response

/-- `Duration::saturating_mul(2)` on a whole-second delay (`u64` seconds,
saturating instead of overflowing). -/
def satMul2 (d : Nat) : Nat :=
  min (d * 2) (2 ^ 64 - 1)

/-- The loop of `SyncClient::sync_with_retry`. `outcome a` is what
`send_events` returns on attempt `a` (`none` = success); the result carries
the final outcome, the number of attempts made, and the list of backoff
delays slept (in seconds). The fuel argument only bounds the recursion; it
never runs out when it starts above `max_retries`. -/
def sync_with_retry_go (outcome : Nat → Option SyncError)
    (max_retries : Nat) :
    Nat → Nat → Nat → Option SyncError × Nat × List Nat
  | 0, attempt, _ => (some (.Unknown "unreachable"), attempt, [])
  | fuel + 1, attempt, delay =>
    match outcome (attempt + 1) with
    | none => (none, attempt + 1, [])
    | some e =>
      if attempt + 1 ≥ max_retries then (some e, attempt + 1, [])
      else
        match e with
        | .Auth _ => (some e, attempt + 1, [])
        | .Network _ | .Server _ =>
          let r := sync_with_retry_go outcome max_retries fuel (attempt + 1)
            (satMul2 delay)
          (r.1, r.2.1, delay :: r.2.2)
        | _ => (some e, attempt + 1, [])

/-- `SyncClient::sync_with_retry`: attempt counter starts at 0, the first
backoff delay is 1 second. -/
def sync_with_retry (outcome : Nat → Option SyncError) (max_retries : Nat) :
    Option SyncError × Nat × List Nat :=
  sync_with_retry_go outcome max_retries (max_retries + 1) 0 1

/-- The sequence of `n` backoff delays starting from `delay`, each the
saturating double of the previous one. -/
def backoffDelays (delay : Nat) : Nat → List Nat
  | 0 => []
  | n + 1 => delay :: backoffDelays (satMul2 delay) n

/-- Modelled from the spec: JSON (de)serialization of `ServerConfig` is
done by the external `serde_json` crate; modelled as an injective record
encoding with its parser. -/
def encode_server_config (c : ServerConfig) : String :=
  c.server_url ++ "\n" ++ c.jwt_token ++ "\n" ++ c.device_id

/-- Split a character list at newline separators. -/
def splitNl : List Char → List (List Char)
  | [] => [[]]
  | c :: cs =>
    if c = '\n' then [] :: splitNl cs
    else
      match splitNl cs with
      | [] => [[c]]
      | l :: ls => (c :: l) :: ls

/-- Modelled from the spec: parsing the persisted `ServerConfig` record. -/
def parse_server_config (s : String) : Option ServerConfig :=
  match splitNl s.data with
  | [u, t, d] =>
    some { server_url := ⟨u⟩, jwt_token := ⟨t⟩, device_id := ⟨d⟩ }
  | _ => none

/-- The process-lifetime state of one `SyncClient`: the store, the cached
crypto key, the cached configuration, and the single-flight flag. -/
structure ClientState where
  db : DbState
  crypto : Option (List Nat)
  config_mem : Option ServerConfig
  is_syncing : Bool
deriving Repr, DecidableEq

/-- `SyncClient::get_config`: the persisted setting wins when it parses;
otherwise fall back to the in-memory cache. -/
def get_config (st : ClientState) : Option ServerConfig :=
  match get_setting st.db "server_config" with
  | some s =>
    match parse_server_config s with
    | some c => some c
    | none => st.config_mem
  | none => st.config_mem

/-- `Database::get_last_sync_time`: the `last_sync_at` record parsed as a
millisecond integer. -/
def get_last_sync_time (db : DbState) : Option Int :=
  (get_last_sync_raw db).bind (fun s => s.toInt?)

/-- `SyncStatus` as assembled by `SyncClient::get_status`. -/
structure SyncStatus where
  is_syncing : Bool
  last_sync_at : Option Int
  pending_events : Int
  last_error : Option String
deriving Repr, DecidableEq

/-- `SyncClient::get_status`: in-flight flag, last successful sync time,
count of unsynced rows, last recorded error string. -/
def get_status (st : ClientState) : SyncStatus :=
  { is_syncing := st.is_syncing,
    last_sync_at := get_last_sync_time st.db,
    pending_events := ((get_unsynced_events st.db).length : Int),
    last_error := get_setting st.db "last_sync_error" }

/-- `SyncClient::sync_events`. `nonces` supplies the fresh per-encryption
nonces, `responses` the HTTP outcome of each attempt, `now` the current
time in milliseconds. The scope guard's reset of the single-flight flag is
modelled by every exit path returning a state with `is_syncing := false`;
the in-progress early return leaves the state — in particular the store —
untouched. -/
def sync_events (nonces : Nat → List Nat) (responses : Nat → HttpOutcome)
    (now : Int) (st : ClientState) : Option SyncError × ClientState :=
  if st.is_syncing then
    (some (.Unknown "Sync already in progress"), st)
  else
    let st1 : ClientState := { st with is_syncing := true }
    match get_config st1 with
    | none =>
      (some (.Unknown "Server not configured"), { st1 with is_syncing := false })
    | some config =>
      let events := get_unsynced_events st1.db
      if events.isEmpty then
        (none, { st1 with is_syncing := false })
      else
        let batch := events.take 100
        let event_ids := batch.map (·.id)
        let result := sync_with_retry
          (fun attempt =>
            send_events st1.crypto nonces now config batch
              (responses attempt)) 3
        match result.1 with
        | none =>
          let db1 := mark_as_synced st1.db event_ids
          let db2 := update_sync_state db1 "last_sync_at" (toString now)
          let db3 := set_setting db2 "last_sync_error" ""
          (none, { st1 with db := db3, is_syncing := false })
        | some e =>
          let db1 := set_setting st1.db "last_sync_error" e.display
          (some e, { st1 with db := db1, is_syncing := false })

/-! ### Concrete sample inputs used by witnesses and counterexamples -/

/-- A sample unsynced event row. -/
def sampleRow : LocalEventRow :=
  { id := "e1", event_type := "app_usage", timestamp := 1000, duration := 0,
    app_name := "a", window_title := none, synced := false,
    created_at := 1000 }

/-- A sample database holding only `sampleRow`. -/
def sampleDbPlain : DbState :=
  { events := [sampleRow], sync_state := [], settings := [] }

/-- A sample server configuration. -/
def sampleConfig : ServerConfig :=
  { server_url := "http://sync.example", jwt_token := "tkn",
    device_id := "dev1" }

/-- A sample database with `sampleRow` unsynced and the server
configuration persisted. -/
def sampleDb : DbState :=
  { events := [sampleRow], sync_state := [],
    settings := [("server_config", encode_server_config sampleConfig)] }

/-- A sample idle client over `sampleDb` with a crypto key installed. -/
def sampleState : ClientState :=
  { db := sampleDb, crypto := some [1], config_mem := none,
    is_syncing := false }

/-- A sample client with a sync already in flight. -/
def busyState : ClientState :=
  { db := sampleDbPlain, crypto := none, config_mem := none,
    is_syncing := true }

/-- A transport that always answers 2xx with a parseable body. -/
def okResponses : Nat → HttpOutcome :=
  fun _ => .response 200 "ok" none

/-- A fixed supply of 12-byte nonces. -/
def sampleNonces : Nat → List Nat :=
  fun _ => List.replicate 12 0

/-- A stored event whose recorded timestamp is 1 ms in the future relative
to a current time of 1000 ms. -/
def sampleFutureEvent : StoredEvent :=
  { id := "e2", event_type := "app_usage", timestamp := 1001, duration := 0,
    app_name := "a", window_title := none }

/-- A capacity-1 queue after two sequential completed enqueues. -/
def overCapacityQueue : EventQueue :=
  ((EventQueue.new 1).enqueue
      { process_name := "A", window_title := "t1", timestamp := 1 }
      "id1" 1).enqueue
    { process_name := "B", window_title := "t2", timestamp := 2 } "id2" 2

end Lifespan

namespace Lifespan

theorem hasPre_iff (p s : List Char) : hasPre p s = true ↔ p <+: s := by
  induction p generalizing s with
  | nil => simp [hasPre]
  | cons a ps ih =>
    cases s with
    | nil => simp [hasPre]
    | cons c cs =>
      simp only [hasPre, Bool.and_eq_true, beq_iff_eq, ih]
      constructor
      · rintro ⟨rfl, h⟩
        rcases h with ⟨t, rfl⟩
        exact ⟨t, rfl⟩
      · intro h
        rcases h with ⟨t, ht⟩
        simp only [List.cons_append, List.cons.injEq] at ht
        exact ⟨ht.1, ⟨t, ht.2⟩⟩

theorem hasSub_iff (p s : List Char) : hasSub p s = true ↔ p <:+: s := by
  induction s with
  | nil =>
    simp only [hasSub, List.isEmpty_iff]
    constructor
    · rintro rfl; exact List.infix_rfl
    · intro h; exact List.eq_nil_of_infix_nil h
  | cons c cs ih =>
    simp only [hasSub, Bool.or_eq_true, hasPre_iff, ih]
    exact (List.infix_cons_iff).symm

/-- `strContains` agrees with substring containment of the underlying
character lists. -/
theorem strContains_iff (s pat : String) :
    strContains s pat = true ↔ pat.data <:+: s.data :=
  hasSub_iff pat.data s.data

/-- In sequential runs the available-permit count never drops below the
configured capacity: a completed enqueue hands its permit back, and every
drained event adds one more, so the semaphore only grows and never exerts
backpressure between completed operations. -/
theorem qreachable_invariant {C : Nat} {q : EventQueue} (h : QReachable C q) :
    q.max_size = C ∧ C ≤ q.permits := by
  induction h with
  | refl => simp [EventQueue.new]
  | tail _ hstep ih =>
    obtain ⟨ih1, ih2⟩ := ih
    cases hstep with
    | enqueue info id now hp => exact ⟨ih1, ih2⟩
    | drain =>
      refine ⟨ih1, ?_⟩
      simp only [EventQueue.drain]
      omega

theorem kvGet_map_upd (m : List (String × String)) (k v : String) :
    kvGet (m.map fun p => if p.1 == k then (k, v) else p) k =
      (kvGet m k).map (fun _ => v) := by
  induction m with
  | nil => rfl
  | cons q m ih =>
    simp only [List.map_cons]
    unfold kvGet at ih ⊢
    by_cases hq : (q.1 == k) = true
    · rw [if_pos hq]
      simp [List.find?_cons, hq]
    · have hq' : (q.1 == k) = false := by simpa using hq
      rw [if_neg hq]
      simpa [List.find?_cons, hq'] using ih

theorem kvGet_append_self (m : List (String × String)) (k v : String)
    (h : kvGet m k = none) : kvGet (m ++ [(k, v)]) k = some v := by
  induction m with
  | nil => simp [kvGet, List.find?_cons]
  | cons q m ih =>
    unfold kvGet at h ih ⊢
    by_cases hq : (q.1 == k) = true
    · simp [List.find?_cons, hq] at h
    · have hq' : (q.1 == k) = false := by simpa using hq
      simp only [List.cons_append]
      simp only [List.find?_cons, hq'] at h ⊢
      exact ih h

theorem kvGet_kvSet_self (m : List (String × String)) (k v : String) :
    kvGet (kvSet m k v) k = some v := by
  unfold kvSet
  by_cases h : (m.find? (fun p => p.1 == k)).isSome
  · rw [if_pos h, kvGet_map_upd]
    unfold kvGet
    rcases Option.isSome_iff_exists.mp h with ⟨p, hp⟩
    rw [hp]
    rfl
  · rw [if_neg h]
    apply kvGet_append_self
    unfold kvGet
    rw [Option.not_isSome_iff_eq_none.mp h]
    rfl

/-- C6: sanitization of a window title is total and three-way: a title
containing the bullet marker "•••" or "***" maps to "[Sensitive Content]"
(this rule has priority); otherwise a title containing one of the fixed
case-sensitive sensitive-app keywords maps to "[Protected App]"; every other
title — including the empty, non-Latin and emoji ones — passes through
unchanged. -/
theorem sanitize_title_spec (title : String) :
    (("•••".data <:+: title.data ∨ "***".data <:+: title.data) →
        sanitize_title title = "[Sensitive Content]") ∧
    (¬("•••".data <:+: title.data ∨ "***".data <:+: title.data) →
      (∃ app ∈ sensitive_apps, app.data <:+: title.data) →
        sanitize_title title = "[Protected App]") ∧
    (¬("•••".data <:+: title.data ∨ "***".data <:+: title.data) →
      ¬(∃ app ∈ sensitive_apps, app.data <:+: title.data) →
        sanitize_title title = title) := by
  have key : (strContains title "•••" || strContains title "***") = true ↔
      ("•••".data <:+: title.data ∨ "***".data <:+: title.data) := by
    simp [strContains_iff]
  have key2 : (sensitive_apps.any fun app => strContains title app) = true ↔
      ∃ app ∈ sensitive_apps, app.data <:+: title.data := by
    simp only [List.any_eq_true, strContains_iff]
  refine ⟨?_, ?_, ?_⟩
  · intro h
    have hb := key.mpr h
    simp [sanitize_title, hb]
  · intro hneg happ
    have h1 : (strContains title "•••" || strContains title "***") = false := by
      cases hb : (strContains title "•••" || strContains title "***")
      · rfl
      · exact absurd (key.mp hb) hneg
    have h2 := key2.mpr happ
    simp [sanitize_title, h1, h2]
  · intro hneg hnapp
    have h1 : (strContains title "•••" || strContains title "***") = false := by
      cases hb : (strContains title "•••" || strContains title "***")
      · rfl
      · exact absurd (key.mp hb) hneg
    have h2 : (sensitive_apps.any fun app => strContains title app) = false := by
      cases hb : (sensitive_apps.any fun app => strContains title app)
      · rfl
      · exact absurd (key2.mp hb) hnapp
    simp [sanitize_title, h1, h2]

/-- Witness for C6 at concrete titles: an asterisk-masked title, a keyword
title, and an emoji title that passes through unchanged. -/
theorem sanitize_title_spec_witness :
    sanitize_title "Account *** hidden" = "[Sensitive Content]" ∧
    sanitize_title "Bank of America" = "[Protected App]" ∧
    sanitize_title "Hello 🌍 World" = "Hello 🌍 World" :=
  ⟨(sanitize_title_spec "Account *** hidden").1 (by decide),
   (sanitize_title_spec "Bank of America").2.1 (by decide) (by decide),
   (sanitize_title_spec "Hello 🌍 World").2.2 (by decide) (by decide)⟩

/-- C7: the code does not enforce the claimed capacity bound. `enqueue`
never calls `forget` on its permit, so the permit is released back to the
semaphore when `enqueue` returns; on a capacity-1 queue two sequential
enqueues are both admitted — each finds a permit available — leaving 2
resident events in a queue whose configured bound is 1, and the subsequent
drain releases one permit per removed event, inflating the semaphore to 3
permits. -/
theorem event_queue_overflow :
    QReachable 1 overCapacityQueue ∧
    overCapacityQueue.max_size = 1 ∧
    overCapacityQueue.events.length = 2 ∧
    1 < overCapacityQueue.events.length ∧
    overCapacityQueue.drain.2.permits = 3 := by
  refine ⟨?_, rfl, rfl, by decide, rfl⟩
  exact Relation.ReflTransGen.tail
    (Relation.ReflTransGen.single
      (QStep.enqueue (EventQueue.new 1)
        { process_name := "A", window_title := "t1", timestamp := 1 }
        "id1" 1 (by decide)))
    (QStep.enqueue _
      { process_name := "B", window_title := "t2", timestamp := 2 }
      "id2" 2 (by decide))

/-- `destutter'` always starts with the element it is carrying. -/
theorem destutter_self_cons (l : List String) (a : String) :
    List.destutter' (· ≠ ·) a l = a :: (List.destutter' (· ≠ ·) a l).tail := by
  induction l generalizing a with
  | nil => rfl
  | cons b bs ih =>
    by_cases h : a ≠ b
    · simp [List.destutter', h]
    · simp only [List.destutter', if_neg h]
      exact ih a

/-- Unfolding the tracking loop: once some process name `p` has been
recorded, the names of the events stored by the rest of the run are the
consecutive-duplicate collapse of the remaining probed-name sequence,
relative to `p`. -/
theorem monitor_fold_stored (ws : List WindowInfo) :
    ∀ (s : MonitorState) (p : String), s.last_window = some p →
      (List.foldl monitor_tick s ws).stored.map (·.process_name) =
        s.stored.map (·.process_name) ++
          (List.destutter' (· ≠ ·) p (ws.map (·.process_name))).tail := by
  induction ws with
  | nil => intro s p hp; simp [List.destutter']
  | cons w ws ih =>
    intro s p hp
    simp only [List.foldl_cons, List.map_cons]
    by_cases h : p = w.process_name
    · have ht : monitor_tick s w = s := by
        simp [monitor_tick, hp, h]
      have hd : List.destutter' (· ≠ ·) p
            (w.process_name :: ws.map (·.process_name)) =
          List.destutter' (· ≠ ·) p (ws.map (·.process_name)) := by
        simp [List.destutter', h]
      rw [ht, hd]
      exact ih s p hp
    · have ht : monitor_tick s w =
          { last_window := some w.process_name,
            events_collected := s.events_collected + 1,
            active_window := some (w.process_name ++ " - " ++ w.window_title),
            stored := s.stored ++ [w] } := by
        simp [monitor_tick, hp, h]
      have hd : List.destutter' (· ≠ ·) p
            (w.process_name :: ws.map (·.process_name)) =
          p :: List.destutter' (· ≠ ·) w.process_name
            (ws.map (·.process_name)) := by
        simp [List.destutter', h]
      rw [ht, hd, ih _ w.process_name rfl]
      rw [destutter_self_cons]
      simp

/-- The stored process-name sequence of a full run is the
consecutive-duplicate collapse (`destutter` under `≠`) of the probed
process-name sequence. -/
theorem monitor_run_stored (ws : List WindowInfo) :
    (monitor_run ws).stored.map (·.process_name) =
      (ws.map (·.process_name)).destutter (· ≠ ·) := by
  cases ws with
  | nil => rfl
  | cons w ws =>
    unfold monitor_run
    simp only [List.foldl_cons]
    have ht : monitor_tick monitor_init w =
        { last_window := some w.process_name,
          events_collected := 1,
          active_window := some (w.process_name ++ " - " ++ w.window_title),
          stored := [w] } := by
      simp [monitor_tick, monitor_init]
    rw [ht, monitor_fold_stored ws _ w.process_name rfl]
    simp only [List.map_cons, List.destutter]
    rw [destutter_self_cons (ws.map (·.process_name)) w.process_name]
    simp

/-- Each tick increments the shared counter exactly when it stores an
event, so counter minus stored count is a loop invariant. -/
theorem monitor_fold_count (ws : List WindowInfo) :
    ∀ s : MonitorState,
      (List.foldl monitor_tick s ws).events_collected -
          ((List.foldl monitor_tick s ws).stored.length : Int) =
        s.events_collected - s.stored.length := by
  induction ws with
  | nil => intro s; rfl
  | cons w ws ih =>
    intro s
    simp only [List.foldl_cons]
    rw [ih]
    unfold monitor_tick
    by_cases h : s.last_window ≠ some w.process_name
    · simp only [if_pos h, List.length_append, List.length_singleton]
      push_cast
      ring
    · simp [h]

/-- C8: over every sequence of successfully probed windows, the monitor
loop stores one event exactly when the probed process name differs from the
last recorded one: the stored name sequence is the consecutive-duplicate
collapse of the probed name sequence, the shared counter equals the number
of stored events, and the concrete sequence [A, A, B, A] stores exactly the
three events A, B, A. -/
theorem monitor_loop_spec (ws : List WindowInfo) :
    (monitor_run ws).stored.map (·.process_name) =
      (ws.map (·.process_name)).destutter (· ≠ ·) ∧
    (monitor_run ws).events_collected = (monitor_run ws).stored.length ∧
    (monitor_run
        [{ process_name := "A", window_title := "t1", timestamp := 1 },
         { process_name := "A", window_title := "t2", timestamp := 2 },
         { process_name := "B", window_title := "t3", timestamp := 3 },
         { process_name := "A", window_title := "t4", timestamp := 4 }]).stored =
      [{ process_name := "A", window_title := "t1", timestamp := 1 },
       { process_name := "B", window_title := "t3", timestamp := 3 },
       { process_name := "A", window_title := "t4", timestamp := 4 }] := by
  refine ⟨monitor_run_stored ws, ?_, by decide⟩
  have h := monitor_fold_count ws monitor_init
  have h2 : monitor_init.events_collected - (monitor_init.stored.length : Int) = 0 := by
    simp [monitor_init]
  rw [h2] at h
  simp only [monitor_run]
  omega

/-- The sequential per-id `UPDATE` statements of `mark_as_synced` have the
same net effect as flipping the `synced` bit of every row whose id is
listed. -/
theorem mark_fold_eq (ids : List String) (events : List LocalEventRow) :
    ids.foldl (fun acc id => markOne id acc) events =
      events.map
        (fun r => if r.id ∈ ids then { r with synced := true } else r) := by
  induction ids generalizing events with
  | nil =>
    simp only [List.foldl_nil, List.not_mem_nil, if_false]
    exact (List.map_id' events).symm
  | cons id ids ih =>
    simp only [List.foldl_cons]
    rw [ih]
    unfold markOne
    rw [List.map_map]
    apply List.map_congr_left
    intro r _
    by_cases hr : r.id = id
    · by_cases h2 : id ∈ ids <;>
        simp [Function.comp, hr, h2, List.mem_cons]
    · by_cases h2 : r.id ∈ ids <;>
        simp [Function.comp, hr, h2, List.mem_cons]

/-- The net effect of `mark_as_synced` on the event table. -/
theorem mark_as_synced_events (db : DbState) (ids : List String) :
    (mark_as_synced db ids).events =
      db.events.map
        (fun r => if r.id ∈ ids then { r with synced := true } else r) := by
  unfold mark_as_synced
  by_cases he : ids.isEmpty
  · rw [if_pos he]
    rw [List.isEmpty_iff.mp he]
    simp only [List.not_mem_nil, if_false]
    exact (List.map_id' db.events).symm
  · rw [if_neg he]
    exact mark_fold_eq ids db.events

theorem mark_as_synced_sync_state (db : DbState) (ids : List String) :
    (mark_as_synced db ids).sync_state = db.sync_state := by
  unfold mark_as_synced
  split <;> rfl

theorem mark_as_synced_settings (db : DbState) (ids : List String) :
    (mark_as_synced db ids).settings = db.settings := by
  unfold mark_as_synced
  split <;> rfl

/-- C10: `mark_as_synced` sets the `synced` flag of exactly the listed rows
to true and changes nothing else — every other field of every row, rows
with unlisted ids, and the key/value tables are untouched; it is total
(never errors) on empty input and unknown ids, a second call with the same
ids has no further effect, and listing only unknown ids leaves the database
unchanged. -/
theorem mark_as_synced_spec (db : DbState) (ids : List String) :
    (mark_as_synced db ids).events =
      db.events.map
        (fun r => if r.id ∈ ids then { r with synced := true } else r) ∧
    mark_as_synced (mark_as_synced db ids) ids = mark_as_synced db ids ∧
    mark_as_synced db [] = db ∧
    ((∀ r ∈ db.events, r.id ∉ ids) → mark_as_synced db ids = db) ∧
    (mark_as_synced db ids).sync_state = db.sync_state ∧
    (mark_as_synced db ids).settings = db.settings := by
  have hevents := mark_as_synced_events db ids
  refine ⟨hevents, ?_, by simp [mark_as_synced], ?_,
    mark_as_synced_sync_state db ids, mark_as_synced_settings db ids⟩
  · by_cases he : ids.isEmpty
    · simp [mark_as_synced, he]
    · unfold mark_as_synced
      rw [if_neg he, if_neg he]
      simp only
      congr 1
      rw [mark_fold_eq, mark_fold_eq, List.map_map]
      apply List.map_congr_left
      intro r _
      by_cases hr : r.id ∈ ids <;> simp [Function.comp, hr]
  · intro hnone
    by_cases he : ids.isEmpty
    · simp [mark_as_synced, he]
    · unfold mark_as_synced
      rw [if_neg he, mark_fold_eq]
      have h1 : ∀ r ∈ db.events,
          (if r.id ∈ ids then { r with synced := true } else r) = r :=
        fun r hr => if_neg (hnone r hr)
      rw [List.map_congr_left h1, List.map_id']

/-! ### Lemmas about the modelled cipher -/

theorem xor_right_cancel {a b c : Nat} (h : a ^^^ b = c ^^^ b) : a = c := by
  have h2 := congrArg (fun t => t ^^^ b) h
  simpa [Nat.xor_assoc, Nat.xor_self, Nat.xor_zero] using h2

theorem xor_left_cancel {a b c : Nat} (h : a ^^^ b = a ^^^ c) : b = c := by
  have h2 := congrArg (fun t => a ^^^ t) h
  simpa [← Nat.xor_assoc, Nat.xor_self, Nat.zero_xor] using h2

theorem xorKs_length (key nonce : List Nat) (i : Nat) (bs : List Nat) :
    (xorKs key nonce i bs).length = bs.length := by
  induction bs generalizing i with
  | nil => rfl
  | cons b bs ih => simp [xorKs, ih]

theorem xorKs_xorKs (key nonce : List Nat) (i : Nat) (bs : List Nat) :
    xorKs key nonce i (xorKs key nonce i bs) = bs := by
  induction bs generalizing i with
  | nil => rfl
  | cons b bs ih =>
    simp only [xorKs, List.cons.injEq]
    exact ⟨Nat.xor_cancel_right _ _, ih (i + 1)⟩

theorem tagOf_length (key nonce payload : List Nat) :
    (tagOf key nonce payload).length = 16 := by
  simp [tagOf]

theorem getD_map_range (f : Nat → Nat) {j n : Nat} (h : j < n) :
    ((List.range n).map f).getD j 0 = f j := by
  rw [List.getD_eq_getElem _ _ (by simpa using h)]
  simp

theorem getD_set_self {l : List Nat} {j : Nat} (b : Nat) (h : j < l.length) :
    (l.set j b).getD j 0 = b := by
  rw [List.getD_eq_getElem _ _ (by simpa using h)]
  simp [List.getElem_set]

theorem set_ne_of_ne {l : List Nat} {j b : Nat} (h : j < l.length)
    (hb : b ≠ l.getD j 0) : l.set j b ≠ l := by
  intro he
  apply hb
  have h2 := congrArg (fun t => t.getD j 0) he
  simp only at h2
  rw [getD_set_self b h] at h2
  exact h2

/-- Changing the payload byte at position `l` XORs the old and new byte
into checksum position `(i + l) % 16`. -/
theorem tagFold_set (j : Nat) (bs : List Nat) :
    ∀ (i l b' : Nat), l < bs.length → (i + l) % 16 = j →
      tagFold j i (bs.set l b') =
        tagFold j i bs ^^^ (bs.getD l 0 ^^^ b') := by
  induction bs with
  | nil => intro i l b' hl _; simp at hl
  | cons b tl ih =>
    intro i l b' hl hmod
    cases l with
    | zero =>
      have hc : i % 16 = j := by simpa using hmod
      simp only [List.set_cons_zero, tagFold, hc, if_pos, List.getD_cons_zero]
      rw [← Nat.xor_assoc, Nat.xor_comm b (tagFold j (i + 1) tl),
        Nat.xor_cancel_right, Nat.xor_comm]
    | succ l0 =>
      have hl0 : l0 < tl.length := by simpa using hl
      have hmod' : (i + 1 + l0) % 16 = j := by
        have he : i + 1 + l0 = i + (l0 + 1) := by omega
        rw [he]; exact hmod
      simp only [List.set_cons_succ, tagFold, List.getD_cons_succ]
      rw [ih (i + 1) l0 b' hl0 hmod', Nat.xor_assoc]

/-- Changing one payload byte to a different value changes the tag. -/
theorem tagOf_payload_ne (key nonce payload : List Nat) {idx b' : Nat}
    (hidx : idx < payload.length) (hb : b' ≠ payload.getD idx 0) :
    tagOf key nonce (payload.set idx b') ≠ tagOf key nonce payload := by
  intro he
  have hj : idx % 16 < 16 := Nat.mod_lt _ (by norm_num)
  have h2 := congrArg (fun t => t.getD (idx % 16) 0) he
  simp only [tagOf] at h2
  rw [getD_map_range _ hj, getD_map_range _ hj] at h2
  have h3 := xor_right_cancel (xor_right_cancel h2)
  rw [tagFold_set (idx % 16) payload 0 idx b' hidx (by simp)] at h3
  have h5 : tagFold (idx % 16) 0 payload ^^^ (payload.getD idx 0 ^^^ b') =
      tagFold (idx % 16) 0 payload ^^^ 0 := by
    rw [Nat.xor_zero]; exact h3
  exact hb (Nat.xor_eq_zero.mp (xor_left_cancel h5)).symm

/-- Changing one nonce byte to a different value changes the tag. -/
theorem tagOf_nonce_ne (key nonce payload : List Nat) {j b' : Nat}
    (hj : j < 12) (hn : nonce.length = 12) (hb : b' ≠ nonce.getD j 0) :
    tagOf key (nonce.set j b') payload ≠ tagOf key nonce payload := by
  intro he
  have hj16 : j < 16 := by omega
  have h2 := congrArg (fun t => t.getD j 0) he
  simp only [tagOf] at h2
  rw [getD_map_range _ hj16, getD_map_range _ hj16] at h2
  have h3 := xor_left_cancel h2
  rw [getD_set_self b' (by omega : j < nonce.length)] at h3
  exact hb h3

/-- Decrypting a well-formed ciphertext whose trailing 16 bytes are the
tag of its payload succeeds and un-XORs the payload. -/
theorem decrypt_append_tag (key nonce payload : List Nat)
    (hn : nonce.length = 12) :
    decrypt key
        { ciphertext := payload ++ tagOf key nonce payload,
          nonce := nonce } =
      some (xorKs key nonce 0 payload) := by
  unfold decrypt
  simp only
  rw [if_neg (by simp [hn])]
  have hlen : (payload ++ tagOf key nonce payload).length =
      payload.length + 16 := by
    rw [List.length_append, tagOf_length]
  rw [if_neg (by rw [hlen]; omega)]
  have hsub : (payload ++ tagOf key nonce payload).length - 16 =
      payload.length := by
    rw [hlen]; omega
  rw [hsub, List.take_left, List.drop_left, if_pos rfl]

/-- Decryption fails whenever the trailing 16 bytes are not the payload's
tag under the key and nonce. -/
theorem decrypt_bad_tag (key nonce payload tg : List Nat)
    (hn : nonce.length = 12) (hlen : tg.length = 16)
    (hne : tg ≠ tagOf key nonce payload) :
    decrypt key { ciphertext := payload ++ tg, nonce := nonce } = none := by
  unfold decrypt
  simp only
  rw [if_neg (by simp [hn])]
  have hl : (payload ++ tg).length = payload.length + 16 := by
    rw [List.length_append, hlen]
  rw [if_neg (by rw [hl]; omega)]
  have hsub : (payload ++ tg).length - 16 = payload.length := by
    rw [hl]; omega
  rw [hsub, List.take_left, List.drop_left, if_neg hne]

/-- C9: with the cipher modelled from the spec's Cryptor contract,
decrypting the (ciphertext, nonce) pair produced by `encrypt` under the
same key returns exactly the original plaintext — for every byte content,
including the empty one — and decryption fails whenever any single byte of
the ciphertext or of the nonce is changed to a different value (which
covers every single-bit flip). -/
theorem crypto_roundtrip_spec (key nonce plaintext : List Nat)
    (hn : nonce.length = 12) :
    decrypt key (encrypt key nonce plaintext) = some plaintext ∧
    (∀ i b', i < (encrypt key nonce plaintext).ciphertext.length →
      b' ≠ (encrypt key nonce plaintext).ciphertext.getD i 0 →
      decrypt key
        { ciphertext := (encrypt key nonce plaintext).ciphertext.set i b',
          nonce := nonce } = none) ∧
    (∀ j b', j < 12 → b' ≠ nonce.getD j 0 →
      decrypt key
        { ciphertext := (encrypt key nonce plaintext).ciphertext,
          nonce := nonce.set j b' } = none) := by
  have hct : (encrypt key nonce plaintext).ciphertext =
      xorKs key nonce 0 plaintext ++
        tagOf key nonce (xorKs key nonce 0 plaintext) := rfl
  refine ⟨?_, ?_, ?_⟩
  · have h := decrypt_append_tag key nonce (xorKs key nonce 0 plaintext) hn
    rw [xorKs_xorKs] at h
    exact h
  · intro i b' hi hb
    rw [hct] at hi hb ⊢
    by_cases hip : i < (xorKs key nonce 0 plaintext).length
    · have hb' : b' ≠ (xorKs key nonce 0 plaintext).getD i 0 := by
        rwa [List.getD_append _ _ 0 i hip] at hb
      have hne := tagOf_payload_ne key nonce (xorKs key nonce 0 plaintext)
        hip hb'
      rw [List.set_append_left i b' hip]
      exact decrypt_bad_tag key nonce ((xorKs key nonce 0 plaintext).set i b')
        (tagOf key nonce (xorKs key nonce 0 plaintext)) hn (tagOf_length _ _ _)
        (fun hcontra => hne hcontra.symm)
    · have hip2 : (xorKs key nonce 0 plaintext).length ≤ i :=
        le_of_not_lt hip
      have hb' : b' ≠ (tagOf key nonce (xorKs key nonce 0 plaintext)).getD
          (i - (xorKs key nonce 0 plaintext).length) 0 := by
        rwa [List.getD_append_right _ _ 0 i hip2] at hb
      have hjt : i - (xorKs key nonce 0 plaintext).length <
          (tagOf key nonce (xorKs key nonce 0 plaintext)).length := by
        rw [List.length_append] at hi
        omega
      have hne := set_ne_of_ne hjt hb'
      rw [List.set_append_right i b' hip2]
      exact decrypt_bad_tag key nonce (xorKs key nonce 0 plaintext)
        ((tagOf key nonce (xorKs key nonce 0 plaintext)).set
          (i - (xorKs key nonce 0 plaintext).length) b') hn
        (by rw [List.length_set, tagOf_length]) hne
  · intro j b' hj hb
    have hn' : (nonce.set j b').length = 12 := by
      rw [List.length_set]; exact hn
    have hne := tagOf_nonce_ne key nonce (xorKs key nonce 0 plaintext)
      hj hn hb
    rw [hct]
    exact decrypt_bad_tag key (nonce.set j b') (xorKs key nonce 0 plaintext)
      (tagOf key nonce (xorKs key nonce 0 plaintext)) hn' (tagOf_length _ _ _)
      (fun hcontra => hne hcontra.symm)

/-- Witness for C9 at a concrete key, nonce and plaintext: the round trip
restores the plaintext, and changing the first ciphertext byte or the first
nonce byte makes decryption fail. -/
theorem crypto_roundtrip_spec_witness :
    decrypt [1, 2] (encrypt [1, 2] (List.replicate 12 0) [10, 20]) =
      some [10, 20] ∧
    decrypt [1, 2]
      { ciphertext :=
          (encrypt [1, 2] (List.replicate 12 0) [10, 20]).ciphertext.set 0 99,
        nonce := List.replicate 12 0 } = none ∧
    decrypt [1, 2]
      { ciphertext :=
          (encrypt [1, 2] (List.replicate 12 0) [10, 20]).ciphertext,
        nonce := (List.replicate 12 0).set 0 7 } = none :=
  ⟨(crypto_roundtrip_spec [1, 2] (List.replicate 12 0) [10, 20]
      (by simp)).1,
   (crypto_roundtrip_spec [1, 2] (List.replicate 12 0) [10, 20]
      (by simp)).2.1 0 99 (by decide) (by decide),
   (crypto_roundtrip_spec [1, 2] (List.replicate 12 0) [10, 20]
      (by simp)).2.2 0 7 (by decide) (by decide)⟩

/-- Witness for C10 at a concrete database and an unknown id. -/
theorem mark_as_synced_spec_witness :
    mark_as_synced sampleDbPlain ["zzz"] = sampleDbPlain :=
  (mark_as_synced_spec sampleDbPlain ["zzz"]).2.2.2.1 (by decide)

/-! ### Lemmas about the retry loop -/

/-- A successful attempt ends the loop at once. -/
theorem retry_go_success (f : Nat → Option SyncError) (m fuel attempt d : Nat)
    (h : f (attempt + 1) = none) :
    sync_with_retry_go f m (fuel + 1) attempt d = (none, attempt + 1, []) := by
  simp only [sync_with_retry_go, h]

/-- A failure that is neither a network nor a server failure ends the loop
at once with that error, whatever the attempt number. -/
theorem retry_go_nonretryable (f : Nat → Option SyncError)
    (m fuel attempt d : Nat) (e : SyncError) (he : f (attempt + 1) = some e)
    (hne : ∀ s, e ≠ .Network s) (hns : ∀ s, e ≠ .Server s) :
    sync_with_retry_go f m (fuel + 1) attempt d = (some e, attempt + 1, []) := by
  simp only [sync_with_retry_go, he]
  by_cases hge : attempt + 1 ≥ m
  · rw [if_pos hge]
  · rw [if_neg hge]
    cases e with
    | Network s => exact absurd rfl (hne s)
    | Server s => exact absurd rfl (hns s)
    | Auth s => rfl
    | Encryption s => rfl
    | Database s => rfl
    | Unknown s => rfl

/-- When every attempt up to the maximum fails with a retryable (network or
server) failure, the loop makes exactly `m` attempts, sleeps the doubling
backoff delays between them, and returns the final attempt's error. -/
theorem retry_go_all_retryable (f : Nat → Option SyncError) (m : Nat)
    (hf : ∀ a, 1 ≤ a → a ≤ m →
      (∃ s, f a = some (.Network s)) ∨ (∃ s, f a = some (.Server s))) :
    ∀ (fuel attempt d : Nat), attempt < m → m ≤ attempt + fuel →
      sync_with_retry_go f m fuel attempt d =
        (f m, m, backoffDelays d (m - attempt - 1)) := by
  intro fuel
  induction fuel with
  | zero => intro attempt d h1 h2; omega
  | succ fuel ih =>
    intro attempt d h1 h2
    have ha := hf (attempt + 1) (by omega) (by omega)
    by_cases hge : attempt + 1 ≥ m
    · have hm : attempt + 1 = m := by omega
      rcases ha with ⟨s, hs⟩ | ⟨s, hs⟩ <;>
      · simp only [sync_with_retry_go, hs, if_pos hge]
        rw [← hs, hm]
        have hz : m - attempt - 1 = 0 := by omega
        rw [hz]
        rfl
    · have hlt : attempt + 1 < m := by omega
      have hrec := ih (attempt + 1) (satMul2 d) hlt (by omega)
      rcases ha with ⟨s, hs⟩ | ⟨s, hs⟩ <;>
      · simp only [sync_with_retry_go, hs, if_neg hge]
        rw [hrec]
        have hd : m - attempt - 1 = (m - (attempt + 1) - 1) + 1 := by omega
        rw [hd]
        rfl

/-- C2: in `sync_with_retry` with the maximum of 3 attempts used by
`sync_events`, an authentication failure — or any failure other than a
network-transport or server failure — on the first attempt is surfaced
immediately with exactly one attempt and no backoff sleep; and when every
attempt fails with a network or server failure, exactly 3 attempts are
made, the backoff delays slept are 1 s then 2 s (starting at 1 s and
doubling, saturating), and the final attempt's error is returned. -/
theorem sync_with_retry_spec (outcome : Nat → Option SyncError) :
    (∀ e, outcome 1 = some e → (∀ s, e ≠ .Network s) → (∀ s, e ≠ .Server s) →
      sync_with_retry outcome 3 = (some e, 1, [])) ∧
    ((∀ a, 1 ≤ a → a ≤ 3 →
        (∃ s, outcome a = some (.Network s)) ∨
        (∃ s, outcome a = some (.Server s))) →
      sync_with_retry outcome 3 = (outcome 3, 3, [1, 2])) := by
  constructor
  · intro e he hne hns
    unfold sync_with_retry
    exact retry_go_nonretryable outcome 3 3 0 1 e he hne hns
  · intro hr
    unfold sync_with_retry
    rw [retry_go_all_retryable outcome 3 hr (3 + 1) 0 1 (by omega) (by omega)]
    have hd : backoffDelays 1 (3 - 0 - 1) = [1, 2] := by
      have h2 : satMul2 1 = 2 := by decide
      simp [backoffDelays, h2]
    rw [hd]

/-- Witness for C2: an endpoint failing with a server error on all three
attempts, and one failing with an authentication error on the first. -/
theorem sync_with_retry_spec_witness :
    sync_with_retry (fun _ => some (.Server "boom")) 3 =
      (some (.Server "boom"), 3, [1, 2]) ∧
    sync_with_retry (fun _ => some (.Auth "denied")) 3 =
      (some (.Auth "denied"), 1, []) :=
  ⟨(sync_with_retry_spec (fun _ => some (.Server "boom"))).2
      (fun a h1 h2 => Or.inr ⟨"boom", rfl⟩),
   (sync_with_retry_spec (fun _ => some (.Auth "denied"))).1
      (.Auth "denied") rfl (fun s => by simp) (fun s => by simp)⟩

/-- C3: calling `sync_events` while the shared `is_syncing` flag is set
fails at once with the "Sync already in progress" error and leaves the
whole client state — in particular the store — untouched. -/
theorem sync_already_in_progress_spec (nonces : Nat → List Nat)
    (responses : Nat → HttpOutcome) (now : Int) (st : ClientState)
    (h : st.is_syncing = true) :
    sync_events nonces responses now st =
      (some (.Unknown "Sync already in progress"), st) ∧
    (sync_events nonces responses now st).2.db = st.db := by
  have he : sync_events nonces responses now st =
      (some (.Unknown "Sync already in progress"), st) := by
    unfold sync_events
    rw [if_pos h]
  exact ⟨he, by rw [he]⟩

/-- The per-event loop of `build_sync_events` never fails once a key is
installed — the modelled ciphertext always carries the 16-byte tag — and
the produced wire timestamps are the clamped event timestamps, in order. -/
theorem build_go_ok (key : List Nat) (nonces : Nat → List Nat) (now : Int) :
    ∀ (events : List StoredEvent) (k : Nat),
      ∃ l, build_go key nonces now k events = .ok l ∧
        l.map (·.timestamp) =
          events.map (fun e => clampTimestamp now e.timestamp) := by
  intro events
  induction events with
  | nil => intro k; exact ⟨[], rfl, rfl⟩
  | cons e es ih =>
    intro k
    obtain ⟨l, hl, hmap⟩ := ih (k + 1)
    refine ⟨mkSyncEvent key (nonces k) now e :: l, ?_, ?_⟩
    · have hlen : ¬ (encrypt key (nonces k) (plaintextOf e)).ciphertext.length
          < 16 := by
        have he : (encrypt key (nonces k) (plaintextOf e)).ciphertext.length =
            (xorKs key (nonces k) 0 (plaintextOf e)).length + 16 := by
          rw [show (encrypt key (nonces k) (plaintextOf e)).ciphertext =
              xorKs key (nonces k) 0 (plaintextOf e) ++
                tagOf key (nonces k) (xorKs key (nonces k) 0 (plaintextOf e))
            from rfl, List.length_append, tagOf_length]
        omega
      simp only [build_go]
      rw [if_neg hlen, hl]
      rfl
    · simp only [List.map_cons, hmap]
      rfl

/-- C5 (amended): in `build_sync_events`, the wire timestamp of every
transmitted event is its recorded timestamp clamped to at most one minute
(60000 ms) ahead of now: when the recorded timestamp exceeds now by more
than 60000 ms the current time is substituted, otherwise — including for
timestamps up to 60 s in the future — the recorded timestamp is kept, so
the server never receives a timestamp more than 60 s ahead of now (but may
receive one up to 60 s in the future). -/
theorem build_timestamp_clamp_spec (key : List Nat) (nonces : Nat → List Nat)
    (now : Int) (events : List StoredEvent) :
    ∃ l, build_sync_events (some key) nonces now events = .ok l ∧
      l.map (·.timestamp) =
        events.map (fun e => clampTimestamp now e.timestamp) ∧
      (∀ se ∈ l, se.timestamp ≤ now + 60000) ∧
      (∀ ts : Int, ts > now + 60000 → clampTimestamp now ts = now) ∧
      (∀ ts : Int, ts ≤ now + 60000 → clampTimestamp now ts = ts) := by
  obtain ⟨l, hl, hmap⟩ := build_go_ok key nonces now events 0
  refine ⟨l, hl, hmap, ?_, ?_, ?_⟩
  · intro se hse
    have hmem : se.timestamp ∈ l.map (·.timestamp) :=
      List.mem_map_of_mem _ hse
    rw [hmap] at hmem
    obtain ⟨e, _, he⟩ := List.mem_map.mp hmem
    rw [← he]
    unfold clampTimestamp
    split <;> omega
  · intro ts h
    unfold clampTimestamp
    rw [if_pos h]
  · intro ts h
    unfold clampTimestamp
    rw [if_neg (by omega)]

/-- C5 counterexample: an event recorded 1 ms in the future (timestamp
1001 ms when now is 1000 ms) is transmitted with its future timestamp
unchanged — the wire timestamp exceeds now, so the claimed clamp to at
most now does not hold on the code. -/
theorem build_timestamp_future_counterexample :
    (build_sync_events (some [1]) sampleNonces 1000
        [sampleFutureEvent]).toOption.map (List.map (·.timestamp)) =
      some [1001] ∧
    (1001 : Int) > 1000 :=
  ⟨rfl, by norm_num⟩

/-- Witness for C5 at concrete timestamps on both sides of the tolerance. -/
theorem build_timestamp_clamp_spec_witness :
    clampTimestamp 1000 70000 = 1000 ∧ clampTimestamp 1000 50000 = 50000 := by
  obtain ⟨l, h1, h2, h3, h4, h5⟩ :=
    build_timestamp_clamp_spec [1] sampleNonces 1000 []
  exact ⟨h4 70000 (by norm_num), h5 50000 (by norm_num)⟩

/-- A string starting with a character other than 'S' is not the
"Sync already in progress" message, whatever follows. -/
theorem append_ne_progress (p s : String) (c : Char)
    (hp : p.data.head? = some c) (hc : c ≠ 'S') :
    p ++ s ≠ "Sync already in progress" := by
  intro he
  have h2 := congrArg (fun t => t.data.head?) he
  simp only at h2
  rw [show (p ++ s).data = p.data ++ s.data from rfl] at h2
  cases hd : p.data with
  | nil => rw [hd] at hp; simp at hp
  | cons c0 tl =>
    rw [hd] at hp h2
    simp only [List.head?_cons, Option.some.injEq] at hp
    have hr : ("Sync already in progress").data.head? = some 'S' := rfl
    rw [List.cons_append, hr] at h2
    simp only [List.head?_cons, Option.some.injEq] at h2
    exact hc (hp ▸ h2)

/-- No response classification yields the single-flight rejection error. -/
theorem classify_ne_progress (o : HttpOutcome) :
    classify_response o ≠ some (.Unknown "Sync already in progress") := by
  unfold classify_response
  cases o with
  | netError msg => simp
  | response status body perr =>
    simp only []
    by_cases h1 : 200 ≤ status ∧ status ≤ 299
    · rw [if_pos h1]
      cases perr with
      | none => simp
      | some e =>
        intro he
        simp only [Option.some.injEq, SyncError.Unknown.injEq] at he
        exact append_ne_progress "Failed to parse response: " e 'F' rfl
          (by decide) he
    · rw [if_neg h1]
      by_cases h2 : status = 401 ∨ status = 403
      · rw [if_pos h2]; simp
      · rw [if_neg h2]
        by_cases h3 : 500 ≤ status ∧ status ≤ 599
        · rw [if_pos h3]; simp
        · rw [if_neg h3]
          intro he
          simp only [Option.some.injEq, SyncError.Unknown.injEq] at he
          exact append_ne_progress ("HTTP " ++ toString status ++ ": ") body
            'H' rfl (by decide) he

/-- `send_events` never fails with the single-flight rejection error. -/
theorem send_events_ne_progress (crypto : Option (List Nat))
    (nonces : Nat → List Nat) (now : Int) (cfg : ServerConfig)
    (events : List StoredEvent) (resp : HttpOutcome) :
    send_events crypto nonces now cfg events resp ≠
      some (.Unknown "Sync already in progress") := by
  unfold send_events build_sync_events
  cases crypto with
  | none => simp
  | some key =>
    simp only []
    obtain ⟨l, hl, _⟩ := build_go_ok key nonces now events 0
    rw [hl]
    exact classify_ne_progress resp

/-- Every error the retry loop returns is an attempt's own error (or the
unreachable fuel marker). -/
theorem retry_result_cases (f : Nat → Option SyncError) (m : Nat) :
    ∀ (fuel attempt d : Nat) (e : SyncError),
      (sync_with_retry_go f m fuel attempt d).1 = some e →
      (∃ a, f a = some e) ∨ e = .Unknown "unreachable" := by
  intro fuel
  induction fuel with
  | zero =>
    intro attempt d e h
    right
    have h2 : some (SyncError.Unknown "unreachable") = some e := h
    simpa using h2.symm
  | succ fuel ih =>
    intro attempt d e h
    simp only [sync_with_retry_go] at h
    cases ho : f (attempt + 1) with
    | none => rw [ho] at h; simp at h
    | some e' =>
      rw [ho] at h
      simp only at h
      by_cases hge : attempt + 1 ≥ m
      · rw [if_pos hge] at h
        simp only at h
        left
        exact ⟨attempt + 1, by rw [ho, h]⟩
      · rw [if_neg hge] at h
        cases e' with
        | Auth s =>
          left
          exact ⟨attempt + 1, by rw [ho]; exact congrArg some (by simpa using h)⟩
        | Network s => exact ih (attempt + 1) (satMul2 d) e h
        | Server s => exact ih (attempt + 1) (satMul2 d) e h
        | Encryption s =>
          left
          exact ⟨attempt + 1, by rw [ho]; exact congrArg some (by simpa using h)⟩
        | Database s =>
          left
          exact ⟨attempt + 1, by rw [ho]; exact congrArg some (by simpa using h)⟩
        | Unknown s =>
          left
          exact ⟨attempt + 1, by rw [ho]; exact congrArg some (by simpa using h)⟩

/-- `sync_with_retry` version of `retry_result_cases`. -/
theorem retry_cases (f : Nat → Option SyncError) (m : Nat) (e : SyncError)
    (h : (sync_with_retry f m).1 = some e) :
    (∃ a, f a = some e) ∨ e = .Unknown "unreachable" :=
  retry_result_cases f m (m + 1) 0 1 e h

/-- A `sync_events` call that actually starts (flag clear) never returns
the single-flight rejection error. -/
theorem sync_events_no_reject (nonces : Nat → List Nat)
    (responses : Nat → HttpOutcome) (now : Int) (st : ClientState)
    (h : st.is_syncing = false) :
    (sync_events nonces responses now st).1 ≠
      some (.Unknown "Sync already in progress") := by
  unfold sync_events
  rw [if_neg (by simp [h])]
  simp only []
  split
  · intro he
    simp at he
  · split
    · simp
    · split
      · simp
      · next e heq =>
        intro hcontra
        simp only [Option.some.injEq] at hcontra
        rw [hcontra] at heq
        rcases retry_cases _ _ _ heq with ⟨a, ha⟩ | hun
        · exact send_events_ne_progress _ _ _ _ _ _ ha
        · exact absurd hun (by decide)

/-- C4: `sync_events` resets the single-flight flag on every exit path: a
call that starts with the flag clear always ends with it clear again, a
"Sync already in progress" rejection can only happen when the flag was
already set on entry, and consequently a call made after an earlier
completed call is never rejected as already in progress. -/
theorem syncing_flag_reset_spec (nonces : Nat → List Nat)
    (responses : Nat → HttpOutcome) (now : Int) (st : ClientState) :
    (st.is_syncing = false →
      (sync_events nonces responses now st).2.is_syncing = false) ∧
    ((sync_events nonces responses now st).1 =
        some (.Unknown "Sync already in progress") →
      st.is_syncing = true) ∧
    (st.is_syncing = false →
      ∀ (nonces' : Nat → List Nat) (responses' : Nat → HttpOutcome)
        (now' : Int),
        (sync_events nonces' responses' now'
            (sync_events nonces responses now st).2).1 ≠
          some (.Unknown "Sync already in progress")) := by
  have hreset : st.is_syncing = false →
      (sync_events nonces responses now st).2.is_syncing = false := by
    intro h
    unfold sync_events
    rw [if_neg (by simp [h])]
    simp only []
    split
    · rfl
    · split
      · rfl
      · split <;> rfl
  refine ⟨hreset, ?_, ?_⟩
  · intro h
    by_contra hb
    have hf : st.is_syncing = false := by
      cases hsy : st.is_syncing
      · rfl
      · exact absurd hsy hb
    exact sync_events_no_reject nonces responses now st hf h
  · intro h nonces' responses' now'
    exact sync_events_no_reject nonces' responses' now' _ (hreset h)

/-- Witness for C4 at a concrete idle client: the flag is clear after the
call, and an immediately following call is not rejected. -/
theorem syncing_flag_reset_spec_witness :
    (sync_events sampleNonces okResponses 2000 sampleState).2.is_syncing =
      false ∧
    (sync_events sampleNonces okResponses 0
        (sync_events sampleNonces okResponses 2000 sampleState).2).1 ≠
      some (.Unknown "Sync already in progress") :=
  ⟨(syncing_flag_reset_spec sampleNonces okResponses 2000 sampleState).1 rfl,
   (syncing_flag_reset_spec sampleNonces okResponses 2000 sampleState).2.2
     rfl sampleNonces okResponses 0⟩

/-- A successful first attempt ends `sync_with_retry` after exactly one
attempt with no backoff sleep. -/
theorem retry_first_success (f : Nat → Option SyncError) (m : Nat)
    (h : f 1 = none) : sync_with_retry f m = (none, 1, []) := by
  unfold sync_with_retry
  exact retry_go_success f m m 0 1 h

/-- The run of a successful `sync_events` call, spelled out: the batch ids
are marked, the last-sync record is written, and the last-error record is
overwritten with the empty string. -/
theorem sync_events_success_run (nonces : Nat → List Nat)
    (responses : Nat → HttpOutcome) (now : Int) (st : ClientState)
    (cfg : ServerConfig) (hflag : st.is_syncing = false)
    (hcfg : get_config { st with is_syncing := true } = some cfg)
    (hne : (get_unsynced_events st.db).isEmpty = false)
    (hsend : send_events st.crypto nonces now cfg
        ((get_unsynced_events st.db).take 100) (responses 1) = none) :
    sync_events nonces responses now st =
      (none,
        { st with
            db := set_setting
              (update_sync_state
                (mark_as_synced st.db
                  (((get_unsynced_events st.db).take 100).map (·.id)))
                "last_sync_at" (toString now))
              "last_sync_error" "",
            is_syncing := false }) := by
  have hs : sync_with_retry
      (fun attempt => send_events st.crypto nonces now cfg
        ((get_unsynced_events st.db).take 100) (responses attempt)) 3 =
      (none, 1, []) :=
    retry_first_success _ 3 hsend
  unfold sync_events
  rw [if_neg (by simp [hflag])]
  simp only [hcfg, hne, Bool.false_eq_true, if_false, hs]

/-- C1 (amended): when a sync actually runs (flag clear, configured, a
non-empty unsynced backlog) and the transport succeeds on the first
attempt, `sync_events` returns success; exactly the rows whose ids are in
the transmitted batch — the first at most 100 events of the oldest-first
unsynced read — get their `synced` flag set, all other rows and fields
unchanged; the `last_sync_at` record is set to the current time; and the
last-error record is overwritten with the empty string, so a subsequent
`get_status` reports `last_error = some ""` (empty error text, not `none`);
when the backlog held at most 100 events, that `get_status` also reports
zero pending events. -/
theorem sync_events_success_spec (nonces : Nat → List Nat)
    (responses : Nat → HttpOutcome) (now : Int) (st : ClientState)
    (cfg : ServerConfig) (hflag : st.is_syncing = false)
    (hcfg : get_config { st with is_syncing := true } = some cfg)
    (hne : (get_unsynced_events st.db).isEmpty = false)
    (hsend : send_events st.crypto nonces now cfg
        ((get_unsynced_events st.db).take 100) (responses 1) = none) :
    (sync_events nonces responses now st).1 = none ∧
    (sync_events nonces responses now st).2.db.events =
      st.db.events.map (fun r =>
        if r.id ∈ ((get_unsynced_events st.db).take 100).map (·.id) then
          { r with synced := true }
        else r) ∧
    kvGet (sync_events nonces responses now st).2.db.sync_state
      "last_sync_at" = some (toString now) ∧
    (get_status (sync_events nonces responses now st).2).last_error =
      some "" ∧
    List.Sorted tsLE
      ((st.db.events.filter (fun r => !r.synced)).insertionSort tsLE) ∧
    ((get_unsynced_events st.db).length ≤ 100 →
      (get_status (sync_events nonces responses now st).2).pending_events =
        0) := by
  have hrun := sync_events_success_run nonces responses now st cfg hflag
    hcfg hne hsend
  rw [hrun]
  refine ⟨rfl, ?_, ?_, ?_, List.sorted_insertionSort tsLE _, ?_⟩
  · simp only [set_setting, update_sync_state]
    exact mark_as_synced_events st.db _
  · simp only [set_setting, update_sync_state]
    exact kvGet_kvSet_self _ _ _
  · simp only [get_status, get_setting, set_setting, update_sync_state]
    exact kvGet_kvSet_self _ _ _
  · intro hlen
    have htake : (get_unsynced_events st.db).take 100 =
        get_unsynced_events st.db :=
      List.take_of_length_le hlen
    have hfilter :
        ((set_setting
            (update_sync_state
              (mark_as_synced st.db
                (((get_unsynced_events st.db).take 100).map (·.id)))
              "last_sync_at" (toString now))
            "last_sync_error" "").events.filter (fun r => !r.synced)) =
          [] := by
      simp only [set_setting, update_sync_state]
      rw [mark_as_synced_events]
      rw [List.filter_eq_nil_iff]
      intro r' hr'
      obtain ⟨r, hr, hrr⟩ := List.mem_map.mp hr'
      by_cases hid :
          r.id ∈ ((get_unsynced_events st.db).take 100).map (·.id)
      · rw [if_pos hid] at hrr
        rw [← hrr]
        simp
      · rw [if_neg hid] at hrr
        rw [← hrr]
        cases hsy : r.synced with
        | true => simp [hsy]
        | false =>
          exfalso
          apply hid
          rw [htake]
          have hrf : r ∈ st.db.events.filter (fun r => !r.synced) :=
            List.mem_filter.mpr ⟨hr, by simp [hsy]⟩
          have hrs : r ∈ (st.db.events.filter
              (fun r => !r.synced)).insertionSort tsLE :=
            (List.perm_insertionSort tsLE _).mem_iff.mpr hrf
          unfold get_unsynced_events
          rw [List.map_map]
          exact List.mem_map.mpr ⟨r, hrs, rfl⟩
    have hempty : get_unsynced_events
        (set_setting
          (update_sync_state
            (mark_as_synced st.db
              (((get_unsynced_events st.db).take 100).map (·.id)))
            "last_sync_at" (toString now))
          "last_sync_error" "") = [] := by
      unfold get_unsynced_events at hfilter ⊢
      rw [hfilter]
      rfl
    simp only [get_status]
    rw [hempty]
    rfl

/-- C1 counterexample: after a fully successful sync of `sampleState`
against a 2xx endpoint, `get_status` reports `last_error = some ""` — the
last-error record holds the empty string rather than being absent, so the
claim that the status reports no last error fails on the code. -/
theorem sync_events_last_error_counterexample :
    (sync_events sampleNonces okResponses 2000 sampleState).1 = none ∧
    (get_status
        (sync_events sampleNonces okResponses 2000 sampleState).2).last_error =
      some "" ∧
    (get_status
        (sync_events sampleNonces okResponses 2000 sampleState).2).last_error ≠
      none := by
  have h2 : (get_status
      (sync_events sampleNonces okResponses 2000
        sampleState).2).last_error = some "" := rfl
  exact ⟨rfl, h2, by rw [h2]; decide⟩

/-- Witness for C1 at the concrete `sampleState`: the success result, the
recorded last-sync time, and the zero pending count. -/
theorem sync_events_success_spec_witness :
    kvGet (sync_events sampleNonces okResponses 2000
        sampleState).2.db.sync_state "last_sync_at" = some "2000" ∧
    (get_status (sync_events sampleNonces okResponses 2000
        sampleState).2).pending_events = 0 :=
  ⟨(sync_events_success_spec sampleNonces okResponses 2000 sampleState
      sampleConfig rfl rfl rfl rfl).2.2.1,
   (sync_events_success_spec sampleNonces okResponses 2000 sampleState
      sampleConfig rfl rfl rfl rfl).2.2.2.2.2 (by decide)⟩

/-- Witness for C3 at a concrete in-flight state. -/
theorem sync_already_in_progress_spec_witness :
    sync_events sampleNonces (fun _ => .netError "down") 0 busyState =
      (some (.Unknown "Sync already in progress"), busyState) :=
  (sync_already_in_progress_spec sampleNonces (fun _ => .netError "down") 0
    busyState rfl).1

end Lifespan
